import Mathlib

/-!
Verification of the invoice OCR and matching pipeline
(`invoice_ocr_matching.py`).

The embedding models the three pipeline functions of the source:

* `extract_fields` — regex field extraction over the document text;
* `match_against_po` — membership test of the extracted invoice number
  in the `InvoiceNumber` column of the purchase-order ledger;
* `process_invoices` — the batch loop over a folder listing, producing
  the result rows, the CSV table and the summary count.

Python strings are modelled over their character lists (the concrete
inputs of the specification are ASCII, and the character classes
`\s`, `\w`, `[\d,.]` are modelled by their ASCII denotations).
Python dictionaries with string keys are association lists in key
insertion order.  Fallible operations (dictionary and column access by
key, text extraction) return `Except`, so an uncaught Python exception
is an `Except.error` value.

The two regular expressions of the source,

    Invoice\s*#?\s*(\w+)      (IGNORECASE)
    Total\s*[:\-]?\s*([\d,.]+) (IGNORECASE)

share one shape: a case-insensitive literal keyword, optional
whitespace, an optional one-character separator from a set, optional
whitespace, and a captured non-empty greedy character-class run.
Because the three character classes involved (whitespace, separator,
captured class) are pairwise disjoint, the greedy left-to-right
matcher without backtracking computes exactly the Python regex match
at a given start position; `searchFirst` then scans start positions
left to right exactly as `re.search` does.
-/

/-- ASCII denotation of the regex class `\s` (Python whitespace). -/
def isSpace (c : Char) : Bool :=
  c == ' ' || c == '\t' || c == '\n' || c == '\r' || c == '\x0b' || c == '\x0c'

/-- ASCII denotation of the regex class `\w`: letters, digits, underscore. -/
def isWordChar (c : Char) : Bool :=
  c.isAlphanum || c == '_'

/-- ASCII denotation of the regex class `[\d,.]`: digits, comma, period. -/
def isAmtChar (c : Char) : Bool :=
  c.isDigit || c == ',' || c == '.'

/-- A Python value as it occurs in the records of this program:
`None`, a string, or a boolean. -/
inductive PyVal where
  | none : PyVal
  | str : String → PyVal
  | bool : Bool → PyVal
deriving DecidableEq, Repr

/-- Python truthiness restricted to the values above: `None` and the
empty string are falsy, a boolean is itself. -/
def PyVal.truthy : PyVal → Bool
  | PyVal.none => false
  | PyVal.str s => !(decide (s = ""))
  | PyVal.bool b => b

/-- How pandas `to_csv` renders one of our values into a cell:
`None` becomes an empty cell, booleans print as `True` and `False`. -/
def PyVal.render : PyVal → String
  | PyVal.none => ""
  | PyVal.str s => s
  | PyVal.bool b => if b then "True" else "False"

/-- A Python dict with string keys in insertion order. -/
abbrev Dict : Type := List (String × PyVal)

/-- The purchase-order table: named columns of strings, as produced by
`pd.read_csv` for this program (only column access by name is used). -/
abbrev Ledger : Type := List (String × List String)

/-- Python dict subscript read: `d[k]`, raising `KeyError` when absent. -/
def dictGet (d : Dict) (k : String) : Except String PyVal :=
  match List.lookup k d with
  | some v => Except.ok v
  | Option.none => Except.error ("KeyError: " ++ k)

/-- Python dict subscript write `d[k] = v`: update in place when the key
exists, append at the end otherwise (dict insertion-order semantics). -/
def dictSet (d : Dict) (k : String) (v : PyVal) : Dict :=
  if d.any (fun kv => kv.1 == k) then
    d.map (fun kv => if kv.1 == k then (k, v) else kv)
  else
    d ++ [(k, v)]

/-- DataFrame column access `df[name]`, raising `KeyError` when the
column is missing. -/
def getColumn (df : Ledger) (name : String) : Except String (List String) :=
  match List.lookup name df with
  | some col => Except.ok col
  | Option.none => Except.error ("KeyError: " ++ name)

/-- Case-insensitive literal matching: consume the characters of the
pattern from the front of the input, comparing lowercased characters,
and return the remaining input on success.  This is the compiled form
of the literal keyword part of the regexes (with `re.IGNORECASE`). -/
def dropLiteralCI : List Char → List Char → Option (List Char)
  | [], s => some s
  | _ :: _, [] => Option.none
  | p :: ps, c :: cs =>
    if p.toLower = c.toLower then dropLiteralCI ps cs else Option.none

/-- Compiled form of the optional separator `[..]?` of the regexes:
consume one leading character when it belongs to `seps`. -/
def sepSkip (seps : List Char) : List Char → List Char
  | [] => []
  | c :: t => if seps.contains c then t else c :: t

/-- Compiled form of a captured non-empty greedy class run `(C+)`:
take the maximal leading run of `cap` characters; fail when empty. -/
def capture (cap : Char → Bool) (r : List Char) : Option (List Char) :=
  let g := r.takeWhile cap
  if g = [] then Option.none else some g

/-- The part of both source regexes after the literal keyword:
optional whitespace, optional separator, optional whitespace, then the
captured run.  Matches the regex tail `\s*[seps]?\s*(cap+)`. -/
def afterKw (seps : List Char) (cap : Char → Bool) (r1 : List Char) : Option (List Char) :=
  capture cap ((sepSkip seps (r1.dropWhile isSpace)).dropWhile isSpace)

/-- Anchored match of a whole source regex
`kw\s*[seps]?\s*(cap+)` (keyword case-insensitive) at the start of
`s`, returning the captured group. -/
def matchKeyAt (kw seps : List Char) (cap : Char → Bool) (s : List Char) : Option (List Char) :=
  match dropLiteralCI kw s with
  | Option.none => Option.none
  | some r1 => afterKw seps cap r1

/-- `re.search` semantics: try every start position from the left and
return the first successful anchored match. -/
def searchFirst (f : List Char → Option (List Char)) : List Char → Option (List Char)
  | [] => f []
  | c :: cs =>
    match f (c :: cs) with
    | some g => some g
    | Option.none => searchFirst f cs

/-- Anchored match of the regex `Invoice\s*#?\s*(\w+)` with
`re.IGNORECASE`, from line 51 of the source. -/
def matchInvoiceAt : List Char → Option (List Char) :=
  matchKeyAt ("Invoice".toList) ['#'] isWordChar

/-- Anchored match of the regex `Total\s*[:\-]?\s*([\d,.]+)` with
`re.IGNORECASE`, from line 54 of the source. -/
def matchTotalAt : List Char → Option (List Char) :=
  matchKeyAt ("Total".toList) [':', '-'] isAmtChar

/-- `extract_fields` from the source: build the four-key record, then
fill `invoice_number` and `total` from the first regex matches. -/
def extract_fields (text : String) : Dict :=
  let fields : Dict :=
    [("invoice_number", PyVal.none), ("vendor", PyVal.none),
     ("date", PyVal.none), ("total", PyVal.none)]
  let fields :=
    match searchFirst matchInvoiceAt text.toList with
    | some g => dictSet fields "invoice_number" (PyVal.str (String.mk g))
    | Option.none => fields
  match searchFirst matchTotalAt text.toList with
  | some g => dictSet fields "total" (PyVal.str (String.mk g))
  | Option.none => fields

/-- `match_against_po` from the source: false when the invoice number
is falsy (absent or empty), otherwise membership of the value in the
`InvoiceNumber` column (exact equality, as Python `in` over the column
values). -/
def match_against_po (fields : Dict) (purchase_orders : Ledger) : Except String Bool :=
  match dictGet fields "invoice_number" with
  | Except.error e => Except.error e
  | Except.ok v =>
    if v.truthy = false then Except.ok false
    else
      (getColumn purchase_orders "InvoiceNumber").map
        (fun col => col.any (fun x => decide (v = PyVal.str x)))

/-- The filter of the batch loop: `fname.lower().endswith(".pdf")`. -/
def isPdfName (fname : String) : Bool :=
  List.isSuffixOf (".pdf".toList) (fname.toList.map Char.toLower)

/-- One iteration of the batch loop body for a qualifying file name:
extract the text, extract the fields, match, then add the `file` and
`matched` keys to the record. -/
def processStep (pdf_folder : String) (extractor : String → Except String String)
    (purchase_orders : Ledger) (fname : String) : Except String Dict :=
  match extractor (pdf_folder ++ "/" ++ fname) with
  | Except.error e => Except.error e
  | Except.ok text =>
    let fields := extract_fields text
    match match_against_po fields purchase_orders with
    | Except.error e => Except.error e
    | Except.ok matched =>
      Except.ok (dictSet (dictSet fields "file" (PyVal.str fname)) "matched" (PyVal.bool matched))

/-- The batch loop of `process_invoices` over the folder listing, in
enumeration order, skipping names without a `.pdf` extension. -/
def processList (pdf_folder : String) (extractor : String → Except String String)
    (purchase_orders : Ledger) : List String → Except String (List Dict)
  | [] => Except.ok []
  | fname :: rest =>
    if isPdfName fname then
      match processStep pdf_folder extractor purchase_orders fname with
      | Except.error e => Except.error e
      | Except.ok row =>
        match processList pdf_folder extractor purchase_orders rest with
        | Except.error e => Except.error e
        | Except.ok rows => Except.ok (row :: rows)
    else
      processList pdf_folder extractor purchase_orders rest

/-- Column list of `pd.DataFrame(results)`: the union of the row keys
in order of first appearance. -/
def dfColumns (rows : List Dict) : List String :=
  rows.foldl (fun acc r => r.foldl
    (fun a kv => if a.contains kv.1 then a else a ++ [kv.1]) acc) []

/-- Cell of a row under a column name: rendered value, empty cell when
the row lacks the key (pandas missing value prints as empty). -/
def cellOf (r : Dict) (k : String) : String :=
  match List.lookup k r with
  | some v => v.render
  | Option.none => ""

/-- `pd.DataFrame(results).to_csv(..., index=False)`: the header row of
column names followed by one rendered row per record. -/
def to_csv (rows : List Dict) : List (List String) :=
  (dfColumns rows) :: rows.map (fun r => (dfColumns rows).map (fun k => cellOf r k))

/-- Observable outcome of a successful `process_invoices` run: the
accumulated records, the written CSV table, and the count printed in
the summary line. -/
structure ProcessOutput where
  rows : List Dict
  csv : List (List String)
  count : Nat
deriving DecidableEq, Repr

/-- `process_invoices` from the source, with the folder listing and the
text extractor passed explicitly (file-system enumeration and PDF
parsing are external collaborators).  An error anywhere aborts the
batch: no CSV table and no summary are produced. -/
def process_invoices (pdf_folder : String) (listing : List String)
    (extractor : String → Except String String) (purchase_orders : Ledger) :
    Except String ProcessOutput :=
  match processList pdf_folder extractor purchase_orders listing with
  | Except.error e => Except.error e
  | Except.ok results =>
    Except.ok { rows := results, csv := to_csv results, count := results.length }

/-- Case-insensitive prefix test, used to state what an occurrence of
a keyword in a text is. -/
def startsWithCI (p s : List Char) : Bool :=
  List.isPrefixOf (p.map Char.toLower) (s.map Char.toLower)

/-- Case-insensitive occurrence of `p` anywhere in the text. -/
def containsCI (p : List Char) : List Char → Bool
  | [] => startsWithCI p []
  | c :: cs => startsWithCI p (c :: cs) || containsCI p cs

/-- A word made of whitespace characters only. -/
def SpacesOnly (w : List Char) : Prop := ∀ c ∈ w, isSpace c = true

/-- A non-empty word of capture-class characters. -/
def CapRun (cap : Char → Bool) (g : List Char) : Prop :=
  g ≠ [] ∧ ∀ c ∈ g, cap c = true

/-- The remainder does not begin with a capture-class character, so the
captured run is maximal. -/
def StopsRun (cap : Char → Bool) (rest : List Char) : Prop :=
  ∀ c ∈ rest.take 1, cap c = false

/-- Declarative statement that the pattern
`kw\s*[seps]?\s*(cap+)` (keyword case-insensitive) matches at the
start of `s` with captured group `g`: `s` decomposes into the keyword
(up to case), a whitespace run, an optional separator, a whitespace
run, the maximal captured run `g`, and the rest. -/
def PatShape (kw seps : List Char) (cap : Char → Bool)
    (s g : List Char) : Prop :=
  ∃ k w1 h w2 rest,
    s = k ++ (w1 ++ (h ++ (w2 ++ (g ++ rest)))) ∧
    k.map Char.toLower = kw.map Char.toLower ∧
    SpacesOnly w1 ∧
    (h = [] ∨ ∃ c, seps.contains c = true ∧ h = [c]) ∧
    SpacesOnly w2 ∧
    CapRun cap g ∧
    StopsRun cap rest

/-- The pattern matches in `text` at start position `i` with captured
group `g`. -/
def PatMatchAt (kw seps : List Char) (cap : Char → Bool)
    (text : List Char) (i : Nat) (g : List Char) : Prop :=
  PatShape kw seps cap (text.drop i) g

/-- The value stored in the record for an optional regex match. -/
def optStr : Option (List Char) → PyVal
  | some g => PyVal.str (String.mk g)
  | Option.none => PyVal.none

/-- Modelled from the claim wording of C3 and C4: the keyword followed
immediately by the optional separator, then optional whitespace, then
the captured run — the regex `kw[seps]?\s*(cap+)`, which lacks the
whitespace that the source regexes permit between the keyword and the
separator. -/
def matchClaimAt (kw seps : List Char) (cap : Char → Bool) (s : List Char) : Option (List Char) :=
  match dropLiteralCI kw s with
  | Option.none => Option.none
  | some r1 => capture cap ((sepSkip seps r1).dropWhile isSpace)

/-- Pairwise disjointness of the three character classes of one of our
patterns; this is what makes the greedy matcher exact. -/
structure PatOk (seps : List Char) (cap : Char → Bool) : Prop where
  sep_not_space : ∀ c, seps.contains c = true → isSpace c = false
  cap_not_space : ∀ c, cap c = true → isSpace c = false
  cap_not_sep : ∀ c, cap c = true → seps.contains c = false

/-! ### Helper lemmas about the matcher pieces -/

lemma spacesOnly_takeWhile (l : List Char) : SpacesOnly (l.takeWhile isSpace) :=
  fun _ hc => List.mem_takeWhile_imp hc

lemma dropWhile_spaces_append {w : List Char} (hw : SpacesOnly w) (t : List Char) :
    List.dropWhile isSpace (w ++ t) = List.dropWhile isSpace t := by
  induction w with
  | nil => simp
  | cons a w' ih =>
    have ha : isSpace a = true := hw a (List.mem_cons_self a w')
    rw [List.cons_append, List.dropWhile_cons, if_pos ha]
    exact ih (fun c hc => hw c (List.mem_cons_of_mem a hc))

lemma dropWhile_cons_false {p : Char → Bool} {a : Char} (t : List Char)
    (ha : p a = false) : List.dropWhile p (a :: t) = a :: t := by
  rw [List.dropWhile_cons, if_neg (by simp [ha])]

lemma takeWhile_run_append {cap : Char → Bool} {g rest : List Char}
    (hg : ∀ c ∈ g, cap c = true) (hrest : StopsRun cap rest) :
    List.takeWhile cap (g ++ rest) = g := by
  induction g with
  | nil =>
    simp only [List.nil_append]
    cases rest with
    | nil => rfl
    | cons r t =>
      rw [List.takeWhile_cons, if_neg]
      simp [hrest r (by simp)]
  | cons a g' ih =>
    rw [List.cons_append, List.takeWhile_cons, if_pos (hg a (List.mem_cons_self a g'))]
    rw [ih (fun c hc => hg c (List.mem_cons_of_mem a hc))]

lemma head_dropWhile_false (p : Char → Bool) (l : List Char) :
    ∀ c ∈ (List.dropWhile p l).take 1, p c = false := by
  induction l with
  | nil => intro c hc; simp at hc
  | cons a t ih =>
    intro c hc
    rw [List.dropWhile_cons] at hc
    by_cases ha : p a = true
    · rw [if_pos ha] at hc; exact ih c hc
    · rw [if_neg ha] at hc
      simp only [List.take, List.mem_singleton] at hc
      subst hc
      exact Bool.not_eq_true _ ▸ (by simpa using ha)

lemma capture_some {cap : Char → Bool} {r g : List Char}
    (h : capture cap r = some g) : r.takeWhile cap = g ∧ g ≠ [] := by
  unfold capture at h
  by_cases hg : r.takeWhile cap = []
  · simp [hg] at h
  · simp only [if_neg hg, Option.some.injEq] at h
    exact ⟨h, h ▸ hg⟩

lemma capture_of_run {cap : Char → Bool} {g rest : List Char}
    (hg : CapRun cap g) (hrest : StopsRun cap rest) :
    capture cap (g ++ rest) = some g := by
  unfold capture
  rw [takeWhile_run_append hg.2 hrest, if_neg hg.1]

lemma dropLiteralCI_append : ∀ (p k : List Char) (t : List Char),
    k.map Char.toLower = p.map Char.toLower → dropLiteralCI p (k ++ t) = some t := by
  intro p
  induction p with
  | nil =>
    intro k t hk
    simp only [List.map_nil] at hk
    have hk0 : k = [] := List.map_eq_nil_iff.mp hk
    subst hk0; rfl
  | cons a ps ih =>
    intro k t hk
    cases k with
    | nil => simp at hk
    | cons b ks =>
      simp only [List.map_cons, List.cons.injEq] at hk
      rw [List.cons_append]
      show (if a.toLower = b.toLower then dropLiteralCI ps (ks ++ t) else Option.none) = some t
      rw [if_pos hk.1.symm]
      exact ih ks t hk.2

lemma dropLiteralCI_some : ∀ (p s r : List Char),
    dropLiteralCI p s = some r →
    ∃ k, s = k ++ r ∧ k.map Char.toLower = p.map Char.toLower := by
  intro p
  induction p with
  | nil =>
    intro s r h
    have h' : some s = some r := h
    obtain rfl : s = r := by injection h'
    exact ⟨[], by simp, rfl⟩
  | cons a ps ih =>
    intro s r h
    cases s with
    | nil => exact absurd h (by simp [dropLiteralCI])
    | cons c cs =>
      have h' : (if a.toLower = c.toLower then dropLiteralCI ps cs else Option.none) = some r := h
      by_cases heq : a.toLower = c.toLower
      · rw [if_pos heq] at h'
        obtain ⟨k', hk1, hk2⟩ := ih cs r h'
        exact ⟨c :: k', by simp [hk1], by simp [hk2, heq.symm]⟩
      · rw [if_neg heq] at h'
        exact absurd h' (by simp)

lemma sepSkip_cons_mem {seps : List Char} {c : Char} (t : List Char)
    (hc : seps.contains c = true) : sepSkip seps (c :: t) = t := by
  have hmem : c ∈ seps := by simpa using hc
  simp [sepSkip, hmem]

lemma sepSkip_cons_not {seps : List Char} {c : Char} (t : List Char)
    (hc : seps.contains c = false) : sepSkip seps (c :: t) = c :: t := by
  have hmem : c ∉ seps := by simpa using hc
  simp [sepSkip, hmem]

lemma isPrefixOf_self_append (l t : List Char) : List.isPrefixOf l (l ++ t) = true := by
  induction l with
  | nil => simp
  | cons a l' ih => simp [List.isPrefixOf, ih]

lemma afterKw_complete {seps : List Char} {cap : Char → Bool} (ok : PatOk seps cap)
    {w1 h w2 g rest : List Char} (hw1 : SpacesOnly w1)
    (hh : h = [] ∨ ∃ c, seps.contains c = true ∧ h = [c]) (hw2 : SpacesOnly w2)
    (hg : CapRun cap g) (hrest : StopsRun cap rest) :
    afterKw seps cap (w1 ++ (h ++ (w2 ++ (g ++ rest)))) = some g := by
  obtain ⟨gc, g', rfl⟩ : ∃ a t, g = a :: t := by
    cases g with
    | nil => exact absurd rfl hg.1
    | cons a t => exact ⟨a, t, rfl⟩
  have hgc : cap gc = true := hg.2 gc (List.mem_cons_self gc g')
  have hgc_sp : isSpace gc = false := ok.cap_not_space gc hgc
  have hgc_sep : seps.contains gc = false := ok.cap_not_sep gc hgc
  have htail : List.dropWhile isSpace (w2 ++ ((gc :: g') ++ rest)) = gc :: (g' ++ rest) := by
    rw [dropWhile_spaces_append hw2, List.cons_append]
    exact dropWhile_cons_false _ hgc_sp
  rcases hh with rfl | ⟨c, hc, rfl⟩
  · unfold afterKw
    rw [List.nil_append, dropWhile_spaces_append hw1, htail,
      sepSkip_cons_not (g' ++ rest) hgc_sep, dropWhile_cons_false _ hgc_sp,
      show gc :: (g' ++ rest) = (gc :: g') ++ rest from rfl]
    exact capture_of_run hg hrest
  · have hc_sp : isSpace c = false := ok.sep_not_space c hc
    unfold afterKw
    rw [dropWhile_spaces_append hw1, List.cons_append, List.nil_append,
      dropWhile_cons_false _ hc_sp,
      sepSkip_cons_mem (w2 ++ ((gc :: g') ++ rest)) hc, htail,
      show gc :: (g' ++ rest) = (gc :: g') ++ rest from rfl]
    exact capture_of_run hg hrest

lemma afterKw_sound {seps : List Char} {cap : Char → Bool} {r1 g : List Char}
    (h : afterKw seps cap r1 = some g) :
    ∃ w1 hs w2 rest,
      r1 = w1 ++ (hs ++ (w2 ++ (g ++ rest))) ∧
      SpacesOnly w1 ∧
      (hs = [] ∨ ∃ c, seps.contains c = true ∧ hs = [c]) ∧
      SpacesOnly w2 ∧ CapRun cap g ∧ StopsRun cap rest := by
  have hr1 : r1 = r1.takeWhile isSpace ++ r1.dropWhile isSpace :=
    (List.takeWhile_append_dropWhile isSpace r1).symm
  cases hdrop : r1.dropWhile isSpace with
  | nil =>
    exfalso
    unfold afterKw at h
    rw [hdrop] at h
    simp [sepSkip, capture] at h
  | cons c t =>
    unfold afterKw at h
    rw [hdrop] at h
    have hc_sp : isSpace c = false := by
      have := head_dropWhile_false isSpace r1 c
      rw [hdrop] at this
      exact this (by simp)
    by_cases hc : seps.contains c = true
    · rw [sepSkip_cons_mem t hc] at h
      have ht : t = t.takeWhile isSpace ++ t.dropWhile isSpace :=
        (List.takeWhile_append_dropWhile isSpace t).symm
      obtain ⟨hcap, hne⟩ := capture_some h
      have hr4 : t.dropWhile isSpace = g ++ (t.dropWhile isSpace).dropWhile cap := by
        conv_lhs => rw [← List.takeWhile_append_dropWhile cap (t.dropWhile isSpace)]
        rw [hcap]
      refine ⟨r1.takeWhile isSpace, [c], t.takeWhile isSpace,
        (t.dropWhile isSpace).dropWhile cap, ?_, spacesOnly_takeWhile r1,
        Or.inr ⟨c, hc, rfl⟩, spacesOnly_takeWhile t,
        ⟨hne, ?_⟩, head_dropWhile_false cap _⟩
      · rw [List.cons_append, List.nil_append, ← hr4, ← ht, ← hdrop, ← hr1]
      · intro x hx
        have := hcap ▸ hx
        exact List.mem_takeWhile_imp this
    · rw [sepSkip_cons_not t (Bool.not_eq_true _ ▸ (by simpa using hc))] at h
      rw [dropWhile_cons_false t hc_sp] at h
      obtain ⟨hcap, hne⟩ := capture_some h
      have hr4 : c :: t = g ++ (List.dropWhile cap (c :: t)) := by
        conv_lhs => rw [← List.takeWhile_append_dropWhile cap (c :: t)]
        rw [hcap]
      refine ⟨r1.takeWhile isSpace, [], [], List.dropWhile cap (c :: t), ?_,
        spacesOnly_takeWhile r1, Or.inl rfl, by intro x hx; simp at hx,
        ⟨hne, ?_⟩, head_dropWhile_false cap _⟩
      · rw [List.nil_append, List.nil_append, ← hr4, ← hdrop, ← hr1]
      · intro x hx
        have := hcap ▸ hx
        exact List.mem_takeWhile_imp this

lemma matchKeyAt_complete {kw seps : List Char} {cap : Char → Bool}
    (ok : PatOk seps cap) {s g : List Char} (hshape : PatShape kw seps cap s g) :
    matchKeyAt kw seps cap s = some g := by
  obtain ⟨k, w1, h, w2, rest, hs, hk, hw1, hh, hw2, hg, hrest⟩ := hshape
  have hd : dropLiteralCI kw s = some (w1 ++ (h ++ (w2 ++ (g ++ rest)))) := by
    rw [hs]; exact dropLiteralCI_append kw k _ hk
  unfold matchKeyAt
  rw [hd]
  exact afterKw_complete ok hw1 hh hw2 hg hrest

lemma matchKeyAt_sound {kw seps : List Char} {cap : Char → Bool} {s g : List Char}
    (h : matchKeyAt kw seps cap s = some g) : PatShape kw seps cap s g := by
  unfold matchKeyAt at h
  cases hd : dropLiteralCI kw s with
  | none => rw [hd] at h; exact absurd h (by simp)
  | some r1 =>
    rw [hd] at h
    obtain ⟨k, hk1, hk2⟩ := dropLiteralCI_some kw s r1 hd
    obtain ⟨w1, hs, w2, rest, hr1, hw1, hh, hw2, hg, hrest⟩ := afterKw_sound h
    exact ⟨k, w1, hs, w2, rest, by rw [hk1, hr1], hk2, hw1, hh, hw2, hg, hrest⟩

lemma matchKeyAt_run {kw seps : List Char} {cap : Char → Bool} {s g : List Char}
    (h : matchKeyAt kw seps cap s = some g) : CapRun cap g := by
  obtain ⟨_, _, _, _, _, _, _, _, _, _, hg, _⟩ := matchKeyAt_sound h
  exact hg

lemma matchKeyAt_startsWithCI {kw seps : List Char} {cap : Char → Bool} {s g : List Char}
    (h : matchKeyAt kw seps cap s = some g) : startsWithCI kw s = true := by
  unfold matchKeyAt at h
  cases hd : dropLiteralCI kw s with
  | none => rw [hd] at h; exact absurd h (by simp)
  | some r1 =>
    obtain ⟨k, hk1, hk2⟩ := dropLiteralCI_some kw s r1 hd
    unfold startsWithCI
    rw [hk1, List.map_append, ← hk2]
    exact isPrefixOf_self_append _ _

/-! ### Lemmas about the left-to-right search -/

lemma searchFirst_eq_of_min (f : List Char → Option (List Char)) :
    ∀ (l : List Char) (i : Nat) (g : List Char),
    (∀ j, j < i → f (l.drop j) = Option.none) → f (l.drop i) = some g →
    searchFirst f l = some g := by
  intro l
  induction l with
  | nil =>
    intro i g hmin hi
    cases i with
    | zero => exact hi
    | succ k =>
      have h0 : f [] = Option.none := hmin 0 (Nat.succ_pos k)
      have h1 : f [] = some g := by simpa using hi
      rw [h0] at h1
      exact absurd h1 (by simp)
  | cons c cs ih =>
    intro i g hmin hi
    cases i with
    | zero =>
      show (match f (c :: cs) with
        | some g => some g
        | Option.none => searchFirst f cs) = some g
      rw [show f ((c :: cs).drop 0) = f (c :: cs) from rfl] at hi
      rw [hi]
    | succ k =>
      have h0 : f (c :: cs) = Option.none := hmin 0 (Nat.succ_pos k)
      show (match f (c :: cs) with
        | some g => some g
        | Option.none => searchFirst f cs) = some g
      rw [h0]
      exact ih k g
        (fun j hj => by
          have := hmin (j + 1) (Nat.succ_lt_succ hj)
          rwa [List.drop_succ_cons] at this)
        (by rwa [List.drop_succ_cons] at hi)

lemma searchFirst_some (f : List Char → Option (List Char)) :
    ∀ (l g : List Char), searchFirst f l = some g →
    ∃ i, f (l.drop i) = some g := by
  intro l
  induction l with
  | nil => intro g h; exact ⟨0, h⟩
  | cons c cs ih =>
    intro g h
    have h' : (match f (c :: cs) with
        | some g => some g
        | Option.none => searchFirst f cs) = some g := h
    cases hf : f (c :: cs) with
    | some g' =>
      rw [hf] at h'
      refine ⟨0, ?_⟩
      rw [show (c :: cs).drop 0 = c :: cs from rfl, hf]
      exact h'
    | none =>
      rw [hf] at h'
      obtain ⟨i, hi⟩ := ih g h'
      exact ⟨i + 1, by rwa [List.drop_succ_cons]⟩

lemma containsCI_of_startsWithCI (p : List Char) :
    ∀ (l : List Char) (i : Nat), startsWithCI p (l.drop i) = true →
    containsCI p l = true := by
  intro l
  induction l with
  | nil =>
    intro i h
    rw [List.drop_nil] at h
    simpa [containsCI] using h
  | cons c cs ih =>
    intro i h
    cases i with
    | zero =>
      rw [show (c :: cs).drop 0 = c :: cs from rfl] at h
      unfold containsCI
      rw [h]
      simp
    | succ k =>
      rw [List.drop_succ_cons] at h
      unfold containsCI
      rw [ih k h]
      simp

/-! ### The two concrete patterns are well-formed -/

lemma isSpace_cases {c : Char} (h : isSpace c = true) :
    c = ' ' ∨ c = '\t' ∨ c = '\n' ∨ c = '\r' ∨ c = '\x0b' ∨ c = '\x0c' := by
  simp only [isSpace, Bool.or_eq_true, beq_iff_eq] at h
  tauto

lemma patOk_invoice : PatOk ['#'] isWordChar := by
  refine ⟨?_, ?_, ?_⟩
  · intro c hc
    have : c = '#' := by simpa using hc
    subst this; decide
  · intro c hc
    by_contra hne
    have hsp : isSpace c = true := by
      cases hx : isSpace c with
      | true => rfl
      | false => exact absurd hx hne
    rcases isSpace_cases hsp with rfl | rfl | rfl | rfl | rfl | rfl <;>
      exact absurd hc (by decide)
  · intro c hc
    by_cases he : c = '#'
    · subst he; exact absurd hc (by decide)
    · simpa using he

lemma patOk_total : PatOk [':', '-'] isAmtChar := by
  refine ⟨?_, ?_, ?_⟩
  · intro c hc
    have : c = ':' ∨ c = '-' := by simpa using hc
    rcases this with rfl | rfl <;> decide
  · intro c hc
    by_contra hne
    have hsp : isSpace c = true := by
      cases hx : isSpace c with
      | true => rfl
      | false => exact absurd hx hne
    rcases isSpace_cases hsp with rfl | rfl | rfl | rfl | rfl | rfl <;>
      exact absurd hc (by decide)
  · intro c hc
    by_cases h1 : c = ':'
    · subst h1; exact absurd hc (by decide)
    · by_cases h2 : c = '-'
      · subst h2; exact absurd hc (by decide)
      · simp [h1, h2]

/-! ### The shape of an extracted record -/

lemma extract_fields_eq (text : String) :
    extract_fields text =
      [("invoice_number", optStr (searchFirst matchInvoiceAt text.toList)),
       ("vendor", PyVal.none), ("date", PyVal.none),
       ("total", optStr (searchFirst matchTotalAt text.toList))] := by
  unfold extract_fields
  cases h1 : searchFirst matchInvoiceAt text.toList with
  | none =>
    cases h2 : searchFirst matchTotalAt text.toList with
    | none => rfl
    | some g2 => rfl
  | some g1 =>
    cases h2 : searchFirst matchTotalAt text.toList with
    | none => rfl
    | some g2 => rfl

/-! ### Lemmas about the batch loop -/

lemma processStep_shape {pdf_folder : String} {extractor : String → Except String String}
    {purchase_orders : Ledger} {fname : String} {row : Dict}
    (h : processStep pdf_folder extractor purchase_orders fname = Except.ok row) :
    ∃ iv tv m,
      row = [("invoice_number", iv), ("vendor", PyVal.none), ("date", PyVal.none),
             ("total", tv), ("file", PyVal.str fname), ("matched", PyVal.bool m)] := by
  unfold processStep at h
  cases he : extractor (pdf_folder ++ "/" ++ fname) with
  | error e => rw [he] at h; exact absurd h (by simp)
  | ok text =>
    rw [he] at h
    replace h : (match match_against_po (extract_fields text) purchase_orders with
      | Except.error e => Except.error e
      | Except.ok matched =>
        Except.ok (dictSet (dictSet (extract_fields text) "file" (PyVal.str fname))
          "matched" (PyVal.bool matched))) = Except.ok row := h
    cases hm : match_against_po (extract_fields text) purchase_orders with
    | error e => rw [hm] at h; exact absurd h (by simp)
    | ok m =>
      rw [hm] at h
      simp only [Except.ok.injEq] at h
      refine ⟨optStr (searchFirst matchInvoiceAt text.toList),
        optStr (searchFirst matchTotalAt text.toList), m, ?_⟩
      rw [← h, extract_fields_eq text]
      rfl

lemma processStep_file {pdf_folder : String} {extractor : String → Except String String}
    {purchase_orders : Ledger} {fname : String} {row : Dict}
    (h : processStep pdf_folder extractor purchase_orders fname = Except.ok row) :
    List.lookup "file" row = some (PyVal.str fname) := by
  obtain ⟨iv, tv, m, rfl⟩ := processStep_shape h
  rfl

lemma processStep_error {pdf_folder : String} {extractor : String → Except String String}
    {purchase_orders : Ledger} {fname : String} {e : String}
    (h : extractor (pdf_folder ++ "/" ++ fname) = Except.error e) :
    processStep pdf_folder extractor purchase_orders fname = Except.error e := by
  unfold processStep
  rw [h]

lemma processList_files {pdf_folder : String} {extractor : String → Except String String}
    {purchase_orders : Ledger} :
    ∀ {listing : List String} {rows : List Dict},
    processList pdf_folder extractor purchase_orders listing = Except.ok rows →
    rows.map (fun r => List.lookup "file" r) =
      (listing.filter (fun f => isPdfName f)).map (fun f => some (PyVal.str f)) := by
  intro listing
  induction listing with
  | nil =>
    intro rows h
    have h' : Except.ok ([] : List Dict) = Except.ok rows := h
    simp only [Except.ok.injEq] at h'
    subst h'
    rfl
  | cons f rest ih =>
    intro rows h
    unfold processList at h
    by_cases hp : isPdfName f = true
    · rw [if_pos hp] at h
      cases hs : processStep pdf_folder extractor purchase_orders f with
      | error e => rw [hs] at h; exact absurd h (by simp)
      | ok row =>
        rw [hs] at h
        cases hr : processList pdf_folder extractor purchase_orders rest with
        | error e => rw [hr] at h; exact absurd h (by simp)
        | ok rows' =>
          rw [hr] at h
          simp only [Except.ok.injEq] at h
          subst h
          rw [List.map_cons, processStep_file hs, ih hr,
            List.filter_cons_of_pos (by simpa using hp), List.map_cons]
    · rw [if_neg hp] at h
      rw [List.filter_cons_of_neg (by simpa using hp)]
      exact ih h

lemma processList_skip_all {pdf_folder : String} {extractor : String → Except String String}
    {purchase_orders : Ledger} :
    ∀ {listing : List String},
    (∀ f ∈ listing, isPdfName f = false) →
    processList pdf_folder extractor purchase_orders listing = Except.ok [] := by
  intro listing
  induction listing with
  | nil => intro _; rfl
  | cons f rest ih =>
    intro hall
    unfold processList
    rw [if_neg (by simp [hall f (List.mem_cons_self f rest)])]
    exact ih (fun g hg => hall g (List.mem_cons_of_mem f hg))

lemma processList_error_at {pdf_folder : String} {extractor : String → Except String String}
    {purchase_orders : Ledger} {f e : String} :
    ∀ (pre : List String) (post : List String),
    (∀ g ∈ pre, isPdfName g = true →
      ∃ row, processStep pdf_folder extractor purchase_orders g = Except.ok row) →
    isPdfName f = true →
    extractor (pdf_folder ++ "/" ++ f) = Except.error e →
    processList pdf_folder extractor purchase_orders (pre ++ f :: post) = Except.error e := by
  intro pre
  induction pre with
  | nil =>
    intro post _ hf he
    show processList pdf_folder extractor purchase_orders (f :: post) = Except.error e
    unfold processList
    rw [if_pos hf, processStep_error he]
  | cons g pre' ih =>
    intro post hpre hf he
    rw [List.cons_append]
    unfold processList
    by_cases hp : isPdfName g = true
    · rw [if_pos hp]
      obtain ⟨row, hrow⟩ := hpre g (List.mem_cons_self g pre') hp
      rw [hrow, ih post (fun x hx hxp => hpre x (List.mem_cons_of_mem g hx) hxp) hf he]
    · rw [if_neg hp]
      exact ih post (fun x hx hxp => hpre x (List.mem_cons_of_mem g hx) hxp) hf he

/-! ### Reduction of the matcher under a known invoice-number value -/

lemma match_against_po_of_get {fields : Dict} {po : Ledger} {v : PyVal}
    (h : List.lookup "invoice_number" fields = some v) :
    match_against_po fields po =
      if v.truthy = false then Except.ok false
      else (getColumn po "InvoiceNumber").map
        (fun col => col.any (fun x => decide (v = PyVal.str x))) := by
  unfold match_against_po dictGet
  rw [h]

/-- C2: for every record whose invoice_number is absent (the value
`None`), and for every ledger (including the empty one), the matcher
returns false; the result does not depend on the ledger at all. -/
theorem match_absent_invoice_false (fields : Dict) (po : Ledger)
    (h : List.lookup "invoice_number" fields = some PyVal.none) :
    match_against_po fields po = Except.ok false := by
  rw [match_against_po_of_get h]
  rfl

/-- Witness for C2 at a concrete record and the empty ledger. -/
theorem match_absent_invoice_false_witness :
    match_against_po [("invoice_number", PyVal.none)] ([] : Ledger) = Except.ok false :=
  match_absent_invoice_false [("invoice_number", PyVal.none)] [] rfl

/-- C9: when the invoice_number value is falsy (`None` or the empty
string) the matcher returns false without touching the ledger — in
particular it cannot fail even when the ledger lacks the
`InvoiceNumber` column, since the column access is reached only on the
branch where the invoice number is a non-empty string, on which the
result is exactly the column access mapped through the membership
test. -/
theorem match_falsy_skips_ledger (fields : Dict) (po : Ledger) :
    (∀ v, List.lookup "invoice_number" fields = some v →
      (v = PyVal.none ∨ v = PyVal.str "") →
      match_against_po fields po = Except.ok false)
    ∧ (∀ s, List.lookup "invoice_number" fields = some (PyVal.str s) → s ≠ "" →
      match_against_po fields po = (getColumn po "InvoiceNumber").map
        (fun col => col.any (fun x => decide (PyVal.str s = PyVal.str x)))) := by
  constructor
  · intro v hv hval
    rw [match_against_po_of_get hv]
    rcases hval with rfl | rfl <;> rfl
  · intro s hs hne
    rw [match_against_po_of_get hs, if_neg (by simp [PyVal.truthy, hne])]

/-- Witness for C9: a falsy record against a ledger that has no
`InvoiceNumber` column still yields false rather than an error. -/
theorem match_falsy_skips_ledger_witness :
    match_against_po [("invoice_number", PyVal.none)] [("Vendor", ["x"])] = Except.ok false :=
  (match_falsy_skips_ledger [("invoice_number", PyVal.none)] [("Vendor", ["x"])]).1
    PyVal.none rfl (Or.inl rfl)

/-- C1 (amended): for every record whose invoice_number is a non-empty
string and every ledger exposing an `InvoiceNumber` column, the
matcher returns true if and only if that string is exactly equal
(case-sensitively, without trimming or normalization) to one of the
column values. -/
theorem match_iff_mem (fields : Dict) (po : Ledger) (s : String) (col : List String)
    (hf : List.lookup "invoice_number" fields = some (PyVal.str s)) (hs : s ≠ "")
    (hcol : List.lookup "InvoiceNumber" po = some col) :
    (match_against_po fields po = Except.ok true ↔ s ∈ col) := by
  rw [match_against_po_of_get hf, if_neg (by simp [PyVal.truthy, hs])]
  unfold getColumn
  rw [hcol]
  show Except.ok (col.any fun x => decide (PyVal.str s = PyVal.str x)) = Except.ok true ↔ s ∈ col
  simp only [Except.ok.injEq]
  rw [List.any_eq_true]
  constructor
  · rintro ⟨x, hx, hdec⟩
    have h2 : s = x := by injection (of_decide_eq_true hdec)
    subst h2
    exact hx
  · intro hmem
    exact ⟨s, hmem, by simp⟩

/-- Witness for C1: case sensitivity at a concrete input — a ledger
containing "A123" does not match a record with invoice_number "a123". -/
theorem match_iff_mem_witness :
    (match_against_po [("invoice_number", PyVal.str "a123")] [("InvoiceNumber", ["A123"])]
        = Except.ok true ↔ ("a123" : String) ∈ ["A123"])
    ∧ match_against_po [("invoice_number", PyVal.str "a123")] [("InvoiceNumber", ["A123"])]
        = Except.ok false :=
  ⟨match_iff_mem [("invoice_number", PyVal.str "a123")] [("InvoiceNumber", ["A123"])]
    "a123" ["A123"] rfl (by decide) rfl, rfl⟩

/-- Counterexample to C1 as stated: a record whose invoice_number is
the empty string is falsy, so the matcher returns false even though
the empty string does occur in the `InvoiceNumber` column — the
biconditional of the claim fails at this input. -/
theorem match_iff_mem_counterexample :
    match_against_po [("invoice_number", PyVal.str "")] [("InvoiceNumber", [""])]
      = Except.ok false
    ∧ ("" : String) ∈ [""] :=
  ⟨rfl, by simp⟩

lemma spacesOnly_nil : SpacesOnly [] :=
  fun c hc => absurd hc (List.not_mem_nil c)

lemma spacesOnly_single {c : Char} (h : isSpace c = true) : SpacesOnly [c] := by
  intro x hx
  rcases List.mem_singleton.mp hx with rfl
  exact h

lemma stopsRun_nil (cap : Char → Bool) : StopsRun cap [] :=
  fun c hc => absurd hc (by simp)

/-- C3 (amended): for every text containing a match of the source
pattern `Invoice\s*(#)?\s*<word>` (keyword case-insensitive, optional
whitespace also allowed between the keyword and the optional sharp),
the extracted invoice_number equals the word run of the first
(leftmost) such match; and for every text with no case-insensitive
occurrence of "Invoice", invoice_number is absent. -/
theorem extract_invoice_number_first_match (text : String) :
    (∀ i g, PatMatchAt ("Invoice".toList) ['#'] isWordChar text.toList i g →
      (∀ j g', j < i → ¬ PatMatchAt ("Invoice".toList) ['#'] isWordChar text.toList j g') →
      List.lookup "invoice_number" (extract_fields text) = some (PyVal.str (String.mk g)))
    ∧ (containsCI ("Invoice".toList) text.toList = false →
      List.lookup "invoice_number" (extract_fields text) = some PyVal.none) := by
  constructor
  · intro i g hmatch hmin
    have hsearch : searchFirst matchInvoiceAt text.toList = some g := by
      apply searchFirst_eq_of_min matchInvoiceAt text.toList i g
      · intro j hj
        cases hc : matchInvoiceAt (text.toList.drop j) with
        | none => rfl
        | some g' => exact absurd (matchKeyAt_sound hc) (hmin j g' hj)
      · exact matchKeyAt_complete patOk_invoice hmatch
    rw [extract_fields_eq, hsearch]
    rfl
  · intro hno
    have hsearch : searchFirst matchInvoiceAt text.toList = Option.none := by
      cases hs : searchFirst matchInvoiceAt text.toList with
      | none => rfl
      | some g =>
        obtain ⟨i, hi⟩ := searchFirst_some matchInvoiceAt text.toList g hs
        have hin := containsCI_of_startsWithCI ("Invoice".toList) text.toList i
          (matchKeyAt_startsWithCI hi)
        rw [hno] at hin
        exact absurd hin (by simp)
    rw [extract_fields_eq, hsearch]
    rfl

/-- Witness for C3 at two concrete texts: a matching one (match at
position 0, so minimality is vacuous) and one without the keyword. -/
theorem extract_invoice_number_first_match_witness :
    List.lookup "invoice_number" (extract_fields "Invoice #A7") = some (PyVal.str "A7")
    ∧ List.lookup "invoice_number" (extract_fields "no keyword here") = some PyVal.none := by
  constructor
  · exact (extract_invoice_number_first_match "Invoice #A7").1 0 ("A7".toList)
      ⟨"Invoice".toList, [' '], ['#'], [], [], by decide, rfl,
        spacesOnly_single (by decide), Or.inr ⟨'#', by decide, rfl⟩,
        spacesOnly_nil, ⟨by decide, by decide⟩, stopsRun_nil _⟩
      (fun j g' hj => absurd hj (Nat.not_lt_zero j))
  · exact (extract_invoice_number_first_match "no keyword here").2 (by decide)

/-- Counterexample to C3 as stated: the claim describes the pattern as
`Invoice(#)?\s*<word>`, with no whitespace allowed before the sharp.
On the text "Invoice #A1 Invoice#B2" the first (and only) match of the
claimed pattern captures "B2", but the code extracts "A1" (the source
regex also allows whitespace between the keyword and the sharp, so its
first match is at the first keyword occurrence). -/
theorem extract_invoice_number_counterexample :
    List.lookup "invoice_number" (extract_fields "Invoice #A1 Invoice#B2")
      = some (PyVal.str "A1")
    ∧ searchFirst (matchClaimAt ("Invoice".toList) ['#'] isWordChar)
        ("Invoice #A1 Invoice#B2".toList) = some ("B2".toList)
    ∧ ("A1" : String) ≠ "B2" :=
  ⟨rfl, rfl, by decide⟩

/-- C4 (amended): for every text containing a match of the source
pattern `Total\s*[:\-]?\s*<run>` (keyword case-insensitive, optional
whitespace also allowed between the keyword and the optional
separator, the run made of digits, commas and periods), the extracted
total equals the run of the first (leftmost) such match, captured
verbatim — the captured characters are exactly a segment of the text,
with commas and periods preserved and no numeric parsing. -/
theorem extract_total_first_match (text : String) (i : Nat) (g : List Char)
    (hmatch : PatMatchAt ("Total".toList) [':', '-'] isAmtChar text.toList i g)
    (hmin : ∀ j g', j < i → ¬ PatMatchAt ("Total".toList) [':', '-'] isAmtChar text.toList j g') :
    List.lookup "total" (extract_fields text) = some (PyVal.str (String.mk g)) := by
  have hsearch : searchFirst matchTotalAt text.toList = some g := by
    apply searchFirst_eq_of_min matchTotalAt text.toList i g
    · intro j hj
      cases hc : matchTotalAt (text.toList.drop j) with
      | none => rfl
      | some g' => exact absurd (matchKeyAt_sound hc) (hmin j g' hj)
    · exact matchKeyAt_complete patOk_total hmatch
  rw [extract_fields_eq, hsearch]
  rfl

/-- Witness for C4 at a concrete text with a match at position 0,
commas and periods preserved verbatim in the capture. -/
theorem extract_total_first_match_witness :
    List.lookup "total" (extract_fields "Total: 1,234.56") = some (PyVal.str "1,234.56") :=
  extract_total_first_match "Total: 1,234.56" 0 ("1,234.56".toList)
    ⟨"Total".toList, [], [':'], [' '], [], by decide, rfl, spacesOnly_nil,
      Or.inr ⟨':', by decide, rfl⟩, spacesOnly_single (by decide),
      ⟨by decide, by decide⟩, stopsRun_nil _⟩
    (fun j g' hj => absurd hj (Nat.not_lt_zero j))

/-- Counterexample to C4 as stated: the claim describes the pattern
with the optional separator immediately after the keyword. On the text
"Total : 1,00 Total:2.50" the first match of the claimed pattern
captures "2.50" (the first keyword occurrence fails for the claimed
pattern because of the space before the colon), but the code extracts
"1,00". -/
theorem extract_total_counterexample :
    List.lookup "total" (extract_fields "Total : 1,00 Total:2.50")
      = some (PyVal.str "1,00")
    ∧ searchFirst (matchClaimAt ("Total".toList) [':', '-'] isAmtChar)
        ("Total : 1,00 Total:2.50".toList) = some ("2.50".toList)
    ∧ ("1,00" : String) ≠ "2.50" :=
  ⟨rfl, rfl, by decide⟩

/-- C10: every extracted record has exactly the four keys
invoice_number, vendor, date, total in this order; vendor and date are
always absent; a present invoice_number is a non-empty string of word
characters; and a true match implies the ledger column contains that
non-empty string. -/
theorem extract_fields_record_shape (text : String) (po : Ledger) :
    (extract_fields text).map Prod.fst = ["invoice_number", "vendor", "date", "total"]
    ∧ List.lookup "vendor" (extract_fields text) = some PyVal.none
    ∧ List.lookup "date" (extract_fields text) = some PyVal.none
    ∧ (∀ s, List.lookup "invoice_number" (extract_fields text) = some (PyVal.str s) →
        s ≠ "" ∧ ∀ c ∈ s.toList, isWordChar c = true)
    ∧ (match_against_po (extract_fields text) po = Except.ok true →
        ∃ col s, List.lookup "InvoiceNumber" po = some col ∧
          List.lookup "invoice_number" (extract_fields text) = some (PyVal.str s) ∧
          s ≠ "" ∧ s ∈ col) := by
  refine ⟨by rw [extract_fields_eq]; rfl, by rw [extract_fields_eq]; rfl,
    by rw [extract_fields_eq]; rfl, ?_, ?_⟩
  · intro s hs
    rw [extract_fields_eq] at hs
    replace hs : some (optStr (searchFirst matchInvoiceAt text.toList)) = some (PyVal.str s) := hs
    cases hsearch : searchFirst matchInvoiceAt text.toList with
    | none => rw [hsearch] at hs; exact absurd hs (by simp [optStr])
    | some g =>
      rw [hsearch] at hs
      have hg : String.mk g = s := by
        have h2 : optStr (some g) = PyVal.str s := by injection hs
        injection h2
      obtain ⟨i, hi⟩ := searchFirst_some matchInvoiceAt text.toList g hsearch
      have hrun := matchKeyAt_run hi
      subst hg
      constructor
      · intro h0
        exact hrun.1 (by simpa using congrArg String.data h0)
      · intro c hc
        exact hrun.2 c hc
  · intro hm
    cases hsearch : searchFirst matchInvoiceAt text.toList with
    | none =>
      have hget : List.lookup "invoice_number" (extract_fields text) = some PyVal.none := by
        rw [extract_fields_eq, hsearch]; rfl
      rw [match_against_po_of_get hget] at hm
      simp [PyVal.truthy] at hm
    | some g =>
      have hget : List.lookup "invoice_number" (extract_fields text)
          = some (PyVal.str (String.mk g)) := by
        rw [extract_fields_eq, hsearch]; rfl
      obtain ⟨i, hi⟩ := searchFirst_some matchInvoiceAt text.toList g hsearch
      have hrun := matchKeyAt_run hi
      have hne : String.mk g ≠ "" :=
        fun h0 => hrun.1 (by simpa using congrArg String.data h0)
      rw [match_against_po_of_get hget, if_neg (by simp [PyVal.truthy, hne])] at hm
      cases hcol : List.lookup "InvoiceNumber" po with
      | none =>
        have hgc : getColumn po "InvoiceNumber"
            = Except.error ("KeyError: " ++ "InvoiceNumber") := by
          unfold getColumn; rw [hcol]
        rw [hgc] at hm
        exact absurd hm (by simp [Except.map])
      | some col =>
        have hgc : getColumn po "InvoiceNumber" = Except.ok col := by
          unfold getColumn; rw [hcol]
        rw [hgc] at hm
        replace hm : Except.ok (col.any (fun x => decide (PyVal.str (String.mk g) = PyVal.str x)))
            = Except.ok true := hm
        have hany : col.any (fun x => decide (PyVal.str (String.mk g) = PyVal.str x)) = true := by
          injection hm
        rw [List.any_eq_true] at hany
        obtain ⟨x, hx, hdec⟩ := hany
        have hxg : String.mk g = x := by injection of_decide_eq_true hdec
        exact ⟨col, String.mk g, rfl, hget, hne, hxg ▸ hx⟩

/-- Witness for C10: a concrete text and ledger on which the match is
true, instantiating the final implication of the theorem. -/
theorem extract_fields_record_shape_witness :
    match_against_po (extract_fields "Invoice #A7") [("InvoiceNumber", ["A7"])] = Except.ok true
    ∧ ∃ col s, List.lookup "InvoiceNumber" ([("InvoiceNumber", ["A7"])] : Ledger) = some col ∧
        List.lookup "invoice_number" (extract_fields "Invoice #A7") = some (PyVal.str s) ∧
        s ≠ "" ∧ s ∈ col :=
  ⟨rfl, (extract_fields_record_shape "Invoice #A7" [("InvoiceNumber", ["A7"])]).2.2.2.2 rfl⟩

/-- C7: on a successful run, the result table has exactly one record
per listing entry whose name ends in ".pdf" case-insensitively, in
enumeration order (witnessed through the per-record file name), and
entries without such an extension produce no record. -/
theorem process_rows_per_pdf (pdf_folder : String) (listing : List String)
    (extractor : String → Except String String) (purchase_orders : Ledger)
    (out : ProcessOutput)
    (h : process_invoices pdf_folder listing extractor purchase_orders = Except.ok out) :
    out.rows.map (fun r => List.lookup "file" r) =
      (listing.filter (fun f => isPdfName f)).map (fun f => some (PyVal.str f)) := by
  unfold process_invoices at h
  cases hl : processList pdf_folder extractor purchase_orders listing with
  | error e => rw [hl] at h; exact absurd h (by simp)
  | ok results =>
    rw [hl] at h
    simp only [Except.ok.injEq] at h
    subst h
    exact processList_files hl

/-- Witness for C7: a listing with two qualifying names (one with an
upper-case extension) and one skipped name. -/
theorem process_rows_per_pdf_witness :
    List.map (fun r => List.lookup "file" r)
      [[("invoice_number", PyVal.none), ("vendor", PyVal.none), ("date", PyVal.none),
        ("total", PyVal.none), ("file", PyVal.str "a.pdf"), ("matched", PyVal.bool false)],
       [("invoice_number", PyVal.none), ("vendor", PyVal.none), ("date", PyVal.none),
        ("total", PyVal.none), ("file", PyVal.str "b.PDF"), ("matched", PyVal.bool false)]]
      = (["a.pdf", "notes.txt", "b.PDF"].filter (fun f => isPdfName f)).map
          (fun f => some (PyVal.str f)) :=
  process_rows_per_pdf "pdfs" ["a.pdf", "notes.txt", "b.PDF"] (fun _ => Except.ok "") []
    ⟨[[("invoice_number", PyVal.none), ("vendor", PyVal.none), ("date", PyVal.none),
        ("total", PyVal.none), ("file", PyVal.str "a.pdf"), ("matched", PyVal.bool false)],
      [("invoice_number", PyVal.none), ("vendor", PyVal.none), ("date", PyVal.none),
        ("total", PyVal.none), ("file", PyVal.str "b.PDF"), ("matched", PyVal.bool false)]],
     [["invoice_number", "vendor", "date", "total", "file", "matched"],
      ["", "", "", "", "a.pdf", "False"],
      ["", "", "", "", "b.PDF", "False"]], 2⟩ rfl

/-- C8: when text extraction fails for a qualifying file of the batch
(every earlier qualifying file having processed fine), the failure
propagates out of the batch: the run returns that very error, no
output table is produced, and the result does not depend on the
remaining listing entries at all (no per-file recovery). -/
theorem process_aborts_on_extraction_error (pdf_folder : String) (pre post : List String)
    (f : String) (extractor : String → Except String String) (purchase_orders : Ledger)
    (e : String)
    (hpre : ∀ g ∈ pre, isPdfName g = true →
      ∃ row, processStep pdf_folder extractor purchase_orders g = Except.ok row)
    (hf : isPdfName f = true)
    (he : extractor (pdf_folder ++ "/" ++ f) = Except.error e) :
    process_invoices pdf_folder (pre ++ f :: post) extractor purchase_orders
      = Except.error e := by
  unfold process_invoices
  rw [processList_error_at pre post hpre hf he]

/-- Witness for C8: the second of three files fails and the whole
batch returns its error. -/
theorem process_aborts_on_extraction_error_witness :
    process_invoices "d" (["a.pdf"] ++ "b.pdf" :: ["c.pdf"])
      (fun p => if p = "d/b.pdf" then Except.error "boom" else Except.ok "") []
      = Except.error "boom" :=
  process_aborts_on_extraction_error "d" ["a.pdf"] ["c.pdf"] "b.pdf"
    (fun p => if p = "d/b.pdf" then Except.error "boom" else Except.ok "") [] "boom"
    (by
      intro g hg _
      rcases List.mem_singleton.mp hg with rfl
      exact ⟨[("invoice_number", PyVal.none), ("vendor", PyVal.none), ("date", PyVal.none),
        ("total", PyVal.none), ("file", PyVal.str "a.pdf"), ("matched", PyVal.bool false)], rfl⟩)
    rfl rfl

/-- C6 (amended): processing a folder with no qualifying .pdf entries
writes an output table consisting of a single header row that contains
no columns — the DataFrame derives its columns from the record keys
and there are no records — and the summary reports 0 processed
documents. -/
theorem process_empty_folder (pdf_folder : String) (listing : List String)
    (extractor : String → Except String String) (purchase_orders : Ledger)
    (h : ∀ f ∈ listing, isPdfName f = false) :
    process_invoices pdf_folder listing extractor purchase_orders
      = Except.ok ⟨[], [[]], 0⟩ := by
  unfold process_invoices
  rw [processList_skip_all h]
  rfl

/-- Witness for C6 at a concrete folder with one non-pdf entry. -/
theorem process_empty_folder_witness :
    process_invoices "pdfs" ["notes.txt"] (fun _ => Except.ok "") []
      = Except.ok ⟨[], [[]], 0⟩ :=
  process_empty_folder "pdfs" ["notes.txt"] (fun _ => Except.ok "") []
    (by intro f hf; rcases List.mem_singleton.mp hf with rfl; rfl)

/-- Counterexample to C6 as stated: on a folder with no qualifying
entries the written header row is empty — it does not contain the six
columns invoice_number, vendor, date, total, file, matched, because
`pd.DataFrame([])` has no columns at all. -/
theorem process_empty_folder_counterexample :
    process_invoices "pdfs" ["readme.txt"] (fun _ => Except.ok "")
        [("InvoiceNumber", ["A100"])] = Except.ok ⟨[], [[]], 0⟩
    ∧ ([] : List String) ≠ ["invoice_number", "vendor", "date", "total", "file", "matched"] :=
  ⟨rfl, by decide⟩

/-- C5: end-to-end behavior on a folder with exactly one document
whose text is "Invoice #A100\nTotal: 250.00": with a ledger containing
an A100 row, exactly one output row is produced with
invoice_number=A100, vendor and date empty, total=250.00, file equal
to the document name and matched=true; with a ledger containing no
A100 row the same run yields matched=false with all other fields
unchanged. -/
theorem process_single_invoice_scenarios :
    process_invoices "pdfs" ["scan1.pdf"]
        (fun _ => Except.ok "Invoice #A100\nTotal: 250.00") [("InvoiceNumber", ["A100"])]
      = Except.ok ⟨[[("invoice_number", PyVal.str "A100"), ("vendor", PyVal.none),
          ("date", PyVal.none), ("total", PyVal.str "250.00"),
          ("file", PyVal.str "scan1.pdf"), ("matched", PyVal.bool true)]],
          [["invoice_number", "vendor", "date", "total", "file", "matched"],
           ["A100", "", "", "250.00", "scan1.pdf", "True"]], 1⟩
    ∧ process_invoices "pdfs" ["scan1.pdf"]
        (fun _ => Except.ok "Invoice #A100\nTotal: 250.00") [("InvoiceNumber", ["B200"])]
      = Except.ok ⟨[[("invoice_number", PyVal.str "A100"), ("vendor", PyVal.none),
          ("date", PyVal.none), ("total", PyVal.str "250.00"),
          ("file", PyVal.str "scan1.pdf"), ("matched", PyVal.bool false)]],
          [["invoice_number", "vendor", "date", "total", "file", "matched"],
           ["A100", "", "", "250.00", "scan1.pdf", "False"]], 1⟩ :=
  ⟨rfl, rfl⟩
